import Mathlib

/-!
# gocollect: the event-ingestion handler of `lazy_server.go`

A shallow embedding of the request path of `lazy_server.go`:

* the decoded JSON payload (`interface{}` values produced by `encoding/json`),
* the field validators `ValidateStringField`, `ValidateIntField`, `ValidateEvent`,
* `EventsHandler`: payload checks, the timestamp loop and the `select` that puts
  the batch on `eventsChannel`,
* the worker loop started in `main`, which drains `eventsChannel` into the store.

Go panics are explicit results, the logger is a list of messages, the buffered
channel is the list of batches it holds, and the clock, the timestamp parser and
the store are inputs of the model.
-/

namespace GoCollect

/-! ## Data model -/

/-- A `time.Time` value, held by its civil fields and its zone offset (seconds
east of UTC). -/
structure Time where
  year : Nat
  month : Nat
  day : Nat
  hour : Nat
  minute : Nat
  second : Nat
  nanosecond : Nat
  offset : Int
  deriving DecidableEq, Repr

/-- The zero value `time.Time{}`: January 1, year 1, 00:00:00 UTC. -/
def Time.zero : Time := ⟨1, 1, 1, 0, 0, 0, 0, 0⟩

/-- A dynamically typed Go value of type `interface{}` as it occurs in the handler:
the six shapes `encoding/json` decodes into (`nil`, `bool`, `float64`, `string`,
`[]interface{}`, `map[string]interface{}`) and the `time.Time` the handler stores
under `timestamp`. A `float64` is carried by its IEEE-754 bit pattern; the program
only ever tests its dynamic type. -/
inductive Value where
  | null
  | bool (b : Bool)
  | number (bits : Nat)
  | str (s : String)
  | time (t : Time)
  | arr (xs : List Value)
  | obj (m : List (String × Value))

/-- A `map[string]interface{}`: an association list read by its first binding of a key. -/
abbrev Map := List (String × Value)

/-- A batch: the `[]interface{}` sent over `eventsChannel`. -/
abbrev Batch := List Value

/-- The map index expression `m[k]` in its two-result form: `some v` when the key is
present (`ok = true`), `none` when it is not. -/
def Map.get : Map → String → Option Value
  | [], _ => none
  | (k', v) :: rest, k => if k' = k then some v else Map.get rest k

/-- The map without its bindings of `k`. -/
def Map.erase : Map → String → Map
  | [], _ => []
  | (k', v) :: rest, k => if k' = k then Map.erase rest k else (k', v) :: Map.erase rest k

/-- The map assignment `m[k] = v`: every former binding of `k` is replaced. -/
def Map.set (m : Map) (k : String) (v : Value) : Map :=
  (k, v) :: Map.erase m k

/-! ## Field validation (`lazy_server.go`, lines 99-149) -/

/-- `ValidateStringField`: `none` is the `nil` error; otherwise the message of the
error built by `fmt.Errorf`. -/
def ValidateStringField (i : Map) (fieldName : String) : Option String :=
  match Map.get i fieldName with
  | none => some (fieldName ++ " is not present")
  | some field =>
    match field with
    | .str stringField =>
      if stringField = "" then some (fieldName ++ " is empty") else none
    | _ => some (fieldName ++ " is not a string")

/-- `ValidateIntField`: the field must be present and hold a `float64`. -/
def ValidateIntField (i : Map) (fieldName : String) : Option String :=
  match Map.get i fieldName with
  | none => some (fieldName ++ " is not present")
  | some field =>
    match field with
    | .number _ => none
    | _ => some (fieldName ++ " is not a number")

/-- `ValidateEvent`: the three field checks in order, returning the first error. -/
def ValidateEvent (event : Map) : Option String :=
  match ValidateStringField event "type" with
  | some err => some err
  | none =>
    match ValidateIntField event "distinct_id" with
    | some err => some err
    | none =>
      match ValidateStringField event "session_id" with
      | some err => some err
      | none => none

/-! ## Environment of the handler -/

/-- The collaborators of `EventsHandler` that live outside the program:
`parse` is `time.Parse(time.RFC3339Nano, ·)` (`some t` when the error is `nil`),
`now i` is the reading `time.Now()` returns while the event at index `i` of the
batch is handled, and `schemaErrors` lists the descriptions in
`eventsSchema.Validate(payload).Errors()` (empty exactly when the result is valid). -/
structure Env where
  parse : String → Option Time
  now : Nat → Time
  schemaErrors : Map → List String

/-- The two results of `time.Parse(time.RFC3339Nano, value)`: on failure the library
returns the zero `Time` together with a non-nil error. -/
def timeParse (env : Env) (value : String) : Time × Option String :=
  match env.parse value with
  | some t => (t, none)
  | none => (Time.zero, some ("parsing time \"" ++ value ++ "\""))

/-- The dynamic type name the Go runtime prints in a failed type assertion. -/
def Value.typeName : Value → String
  | .null => "nil"
  | .bool _ => "bool"
  | .number _ => "float64"
  | .str _ => "string"
  | .time _ => "time.Time"
  | .arr _ => "[]interface {}"
  | .obj _ => "map[string]interface {}"

/-- The run-time panic of a single-result type assertion `v.(T)` on a value of
another dynamic type. -/
def conversionPanic (v : Value) (want : String) : String :=
  "interface conversion: interface {} is " ++ v.typeName ++ ", not " ++ want

/-! ## The timestamp loop (`lazy_server.go`, lines 178-194) -/

/-- The body of the loop for one event (lines 184-193). A present `timestamp` is
asserted to be a string (a panic otherwise) and parsed; the parse error is not
acted upon, and the `Time` result is stored whatever it is. An absent `timestamp`
is set to `time.Now()`. -/
def normalizeEvent (env : Env) (i : Nat) (event : Map) : Except String Map :=
  match Map.get event "timestamp" with
  | some timestamp =>
    match timestamp with
    | .str s => .ok (Map.set event "timestamp" (.time (timeParse env s).1))
    | other => .error (conversionPanic other "string")
  | none => .ok (Map.set event "timestamp" (.time (env.now i)))

/-- The loop `for _, ievent := range events.([]interface{})` from index `i` on:
each element is asserted to be a map (a panic otherwise) and rewritten by
`normalizeEvent`. `ValidateEvent` is not called (line 182 is commented out). -/
def normalizeLoop (env : Env) : Nat → List Value → Except String Batch
  | _, [] => .ok []
  | i, ievent :: rest =>
    match ievent with
    | .obj event =>
      match normalizeEvent env i event with
      | .error p => .error p
      | .ok event' =>
        match normalizeLoop env (i + 1) rest with
        | .error p => .error p
        | .ok rest' => .ok (.obj event' :: rest')
    | other => .error (conversionPanic other "map[string]interface {}")

/-! ## The queue (`eventsChannel`, a channel of capacity 100) -/

/-- The capacity given to `eventsChannel` in `main` (line 298). -/
def eventsChannelCap : Nat := 100

/-- How the `select` of lines 197-203 resolves. -/
inductive Enqueue where
  | sentImmediately
  | sentAfterWait
  | timedOut
  deriving DecidableEq, Repr

/-- The `select` of lines 197-203 on a channel holding `queue`. With room in the
buffer the send case is ready at once. On a full buffer the handler blocks:
`workerReceives` tells whether a worker takes the head of the queue before
`time.After(1 * time.Second)` fires, in which case the send goes through;
otherwise the timer case is taken and the queue is left as it was. -/
def enqueue (queue : List Batch) (events : Batch) (workerReceives : Bool) :
    List Batch × Enqueue :=
  if queue.length < eventsChannelCap then (queue ++ [events], .sentImmediately)
  else if workerReceives then (queue.tail ++ [events], .sentAfterWait)
  else (queue, .timedOut)

/-! ## `EventsHandler` (`lazy_server.go`, lines 151-209) -/

/-- The state shared by the handlers and the workers: the buffer of
`eventsChannel`, the messages given to `logger`, the documents held by the
`events` collection and the batches handed to `Insert`, in order. -/
structure Server where
  queue : List Batch
  log : List String
  docs : List Value
  calls : List Batch

/-- What the handler did to its `http.ResponseWriter` and how it ended: `status` is
the code passed to `w.WriteHeader` (`none` when it was never called), `panic` is
the value the handler panicked with, if it did. -/
structure Response where
  status : Option Nat
  panic : Option String

/-- `http.StatusNoContent`. -/
def StatusNoContent : Nat := 204

/-- `http.StatusInternalServerError`. -/
def StatusInternalServerError : Nat := 500

/-- `EventsHandler`. `body` is the result of `decoder.Decode(&v)`: the decoded
value or the error's message. -/
def EventsHandler (env : Env) (st : Server) (body : Except String Value)
    (workerReceives : Bool) : Server × Response :=
  match body with
  | .error err =>
    ({ st with log := st.log ++ [err] }, ⟨none, some "invalid json payload"⟩)
  | .ok v =>
    match v with
    | .obj eventsPayload =>
      let st1 : Server := { st with log := st.log ++ env.schemaErrors eventsPayload }
      match Map.get eventsPayload "events" with
      | some events =>
        match events with
        | .arr evs =>
          match normalizeLoop env 0 evs with
          | .error p => (st1, ⟨none, some p⟩)
          | .ok batch =>
            match enqueue st1.queue batch workerReceives with
            | (q, .timedOut) =>
              ({ st1 with
                  queue := q
                  log := st1.log ++
                    ["Failed to respond below one second. Events channell is occupied."] },
                ⟨some StatusInternalServerError, none⟩)
            | (q, _) => ({ st1 with queue := q }, ⟨some StatusNoContent, none⟩)
        | other => (st1, ⟨none, some (conversionPanic other "[]interface {}")⟩)
      | none => (st1, ⟨none, none⟩)
    | other => (st, ⟨none, some (conversionPanic other "map[string]interface {}")⟩)

/-! ## The workers (`main`, lines 303-314) -/

/-- The store call `eventsCollection.Insert(events...)`: `fails` tells whether the
store rejects the call. An acknowledged insert appends the documents of the
batch; a rejected one leaves the collection as it was and returns an error. -/
def Insert (docs : List Value) (events : Batch) (fails : Bool) :
    List Value × Option String :=
  if fails then (docs, some "insert failed") else (docs ++ events, none)

/-- One iteration of a worker's loop (lines 310-311): receive the head of the
queue and hand it to `Insert`, whose error result is discarded. `none` when the
queue is empty: the worker stays blocked in the receive. -/
def workerStep (st : Server) (fails : Bool) : Option Server :=
  match st.queue with
  | [] => none
  | events :: rest =>
    some { st with
      queue := rest
      docs := (Insert st.docs events fails).1
      calls := st.calls ++ [events] }

/-- Successive iterations of one worker, one per entry of `fails` (the outcome of
each store call), until the queue is found empty. -/
def workerLoop : Server → List Bool → Server
  | st, [] => st
  | st, f :: fs =>
    match workerStep st f with
    | none => st
    | some st' => workerLoop st' fs

/-! ## One producer and one worker on the queue -/

/-- An action on the queue: the producer's `select` resolves for a batch, or the
worker performs one iteration of its loop, `fails` being the outcome of its store
call. -/
inductive Op where
  | submit (events : Batch)
  | work (fails : Bool)

/-- The server together with the batches accepted so far. The batches dequeued so
far are the ones recorded in `Server.calls`. -/
structure Trace where
  server : Server
  accepted : List Batch

/-- One action: a `submit` is the `select` resolving with no receive in between
(receives are `work` actions of their own); a `work` is `workerStep`, which does
nothing on an empty queue. -/
def Trace.step (t : Trace) : Op → Trace
  | .submit events =>
    match enqueue t.server.queue events false with
    | (_, .timedOut) => t
    | (q, _) => { server := { t.server with queue := q }, accepted := t.accepted ++ [events] }
  | .work fails =>
    match workerStep t.server fails with
    | none => t
    | some server => { t with server := server }

/-- A sequence of actions from a given state. -/
def Trace.run (t : Trace) (ops : List Op) : Trace :=
  ops.foldl Trace.step t

/-- A fresh server: empty queue, nothing accepted, nothing dequeued. -/
def Trace.init : Trace := ⟨⟨[], [], [], []⟩, []⟩

/-- The batch elements on which the timestamp loop cannot panic: maps whose
`timestamp` is absent or holds a string. -/
def wellShaped (v : Value) : Prop :=
  ∃ e, v = .obj e ∧
    (Map.get e "timestamp" = none ∨ ∃ s, Map.get e "timestamp" = some (.str s))

/-- The documents a worker's acknowledged store calls add: the batches of the queue,
in order, whose call did not fail. -/
def persisted : List Batch → List Bool → List Value
  | events :: queue, f :: fs => (if f then [] else events) ++ persisted queue fs
  | _, _ => []

/-! ## Concrete collaborators used to evaluate the model -/

/-- The decimal value of a digit character. -/
def digitVal (c : Char) : Option Nat :=
  if c.isDigit then some (c.toNat - 48) else none

/-- The decimal value of a non-empty run of digits. -/
def digitsVal : List Char → Option Nat
  | [] => none
  | cs => cs.foldl (fun acc c =>
      match acc, digitVal c with
      | some n, some d => some (10 * n + d)
      | _, _ => none) (some 0)

/-- The library's `getnum`: a number of two digits, or of one digit when `fixed` is
false and no second digit follows; the rest of the input comes with it. -/
def getnum (s : List Char) (fixed : Bool) : Option (Nat × List Char) :=
  match s with
  | [] => none
  | c1 :: rest =>
    match digitVal c1 with
    | none => none
    | some d1 =>
      match rest with
      | [] => if fixed then none else some (d1, [])
      | c2 :: rest' =>
        match digitVal c2 with
        | some d2 => some (10 * d1 + d2, rest')
        | none => if fixed then none else some (d1, rest)

/-- The input after the literal character `c` of the layout. -/
def skipChar (c : Char) : List Char → Option (List Char)
  | [] => none
  | d :: rest => if d = c then some rest else none

/-- The number of days of a month, in the proleptic Gregorian calendar. -/
def daysIn (year month : Nat) : Nat :=
  if month = 2 then
    (if year % 4 = 0 ∧ (year % 100 ≠ 0 ∨ year % 400 = 0) then 29 else 28)
  else if month = 4 ∨ month = 6 ∨ month = 9 ∨ month = 11 then 30
  else 31

/-- The fractional-second field `.999999999` of the layout: a period or a comma
followed by at least one digit, all the digits that follow being taken and the
first nine counted; without such a start the field is omitted and nothing is
consumed. The result is the nanoseconds and the rest of the input. -/
def parseFraction (s : List Char) : Nat × List Char :=
  match s with
  | p :: d :: rest =>
    if (p = '.' ∨ p = ',') ∧ d.isDigit then
      let digits := (d :: rest).takeWhile Char.isDigit
      let counted := digits.take 9
      ((digitsVal counted).getD 0 * 10 ^ (9 - counted.length),
        (d :: rest).dropWhile Char.isDigit)
    else (0, s)
  | _ => (0, s)

/-- The zone field `Z07:00` of the layout: `Z`, or a sign, two digits, a colon and
two digits, with at most 24 hours and 60 minutes. The result is the offset in
seconds east of UTC and the rest of the input. -/
def parseZone (s : List Char) : Option (Int × List Char) :=
  match s with
  | 'Z' :: rest => some (0, rest)
  | sign :: h1 :: h2 :: ':' :: m1 :: m2 :: rest =>
    match digitVal h1, digitVal h2, digitVal m1, digitVal m2 with
    | some a, some b, some c, some d =>
      let hr := 10 * a + b
      let mm := 10 * c + d
      if hr ≤ 24 ∧ mm ≤ 60 then
        if sign = '+' then some (((hr * 60 + mm) * 60 : Nat), rest)
        else if sign = '-' then some (-(((hr * 60 + mm) * 60 : Nat) : Int), rest)
        else none
      else none
    | _, _, _, _ => none
  | _ => none

/-- The call `time.Parse(time.RFC3339Nano, value)`, after the library's parser for
the layout `2006-01-02T15:04:05.999999999Z07:00`, field by field: a year of four
digits, a month and a day of two, an hour of one or two digits, minutes and
seconds of two, the optional fraction, the zone, and nothing after it; each field
is checked for its range and the day against the length of its month. `none` is a
non-nil error. The model is evaluated with this parser; the general statements
hold for every `Env.parse`. -/
def parseRFC3339Nano (value : String) : Option Time :=
  match value.toList with
  | y1 :: y2 :: y3 :: y4 :: rest0 =>
    match digitsVal [y1, y2, y3, y4] with
    | none => none
    | some year =>
      match (skipChar '-' rest0).bind (fun r => getnum r true) with
      | none => none
      | some (month, rest1) =>
        if month = 0 ∨ 12 < month then none else
        match (skipChar '-' rest1).bind (fun r => getnum r true) with
        | none => none
        | some (day, rest2) =>
          match (skipChar 'T' rest2).bind (fun r => getnum r false) with
          | none => none
          | some (hour, rest3) =>
            if 24 ≤ hour then none else
            match (skipChar ':' rest3).bind (fun r => getnum r true) with
            | none => none
            | some (minute, rest4) =>
              if 60 ≤ minute then none else
              match (skipChar ':' rest4).bind (fun r => getnum r true) with
              | none => none
              | some (second, rest5) =>
                if 60 ≤ second then none else
                match parseZone (parseFraction rest5).2 with
                | some (offset, []) =>
                  if day < 1 ∨ daysIn year month < day then none
                  else some ⟨year, month, day, hour, minute, second,
                    (parseFraction rest5).1, offset⟩
                | _ => none
  | _ => none

/-- An environment for examples: the parser above, a clock that reads
2024-05-06 07:08:09 UTC plus `i` nanoseconds at event `i`, and a schema that
accepts every payload. -/
def sampleEnv : Env where
  parse := parseRFC3339Nano
  now := fun i => ⟨2024, 5, 6, 7, 8, 9, i, 0⟩
  schemaErrors := fun _ => []

/-- A server with an empty queue, an empty log and an empty collection. -/
def emptyServer : Server := ⟨[], [], [], []⟩

/-- The `float64` 1, by its bit pattern. -/
def one : Value := .number 0x3FF0000000000000

/-- A well-formed event without a `timestamp`. -/
def goodEvent : Map :=
  [("type", .str "click"), ("distinct_id", one), ("session_id", .str "s1")]

/-- An event that has neither `distinct_id` nor `session_id`. -/
def badEvent : Map := [("type", .str "click")]

/-- A well-formed event with the `timestamp` given. -/
def stamped (timestamp : Value) : Map := ("timestamp", timestamp) :: goodEvent

/-- The payload object whose only key is `events`, bound to the array `evs`. -/
def payloadOf (evs : List Value) : Map := [("events", .arr evs)]

/-- A server whose queue holds 100 empty batches. -/
def fullServer : Server := ⟨List.replicate 100 [], [], [], []⟩

/-! ## Maps -/

theorem Map.get_set_self (m : Map) (k : String) (v : Value) :
    Map.get (Map.set m k v) k = some v := by
  simp [Map.set, Map.get]

theorem Map.get_erase_other (m : Map) (k k' : String) (h : k' ≠ k) :
    Map.get (Map.erase m k) k' = Map.get m k' := by
  induction m with
  | nil => rfl
  | cons kv rest ih =>
    obtain ⟨a, b⟩ := kv
    by_cases hak : a = k
    · have hne : ¬ a = k' := fun e => h (e ▸ hak)
      simp only [Map.erase, Map.get, if_pos hak, if_neg hne, ih]
    · by_cases hak' : a = k'
      · simp only [Map.erase, Map.get, if_neg hak, if_pos hak']
      · simp only [Map.erase, Map.get, if_neg hak, if_neg hak', ih]

theorem Map.get_set_other (m : Map) (k k' : String) (v : Value) (h : k' ≠ k) :
    Map.get (Map.set m k v) k' = Map.get m k' := by
  have hk : ¬ k = k' := fun e => h e.symm
  simp only [Map.set, Map.get, if_neg hk]
  exact Map.get_erase_other m k k' h

/-! ## Field validation -/

theorem ValidateStringField_eq_none_iff (i : Map) (fieldName : String) :
    ValidateStringField i fieldName = none ↔
      ∃ s, Map.get i fieldName = some (.str s) ∧ s ≠ "" := by
  unfold ValidateStringField
  cases hget : Map.get i fieldName with
  | none => simp
  | some field =>
    cases field <;> simp

theorem ValidateIntField_eq_none_iff (i : Map) (fieldName : String) :
    ValidateIntField i fieldName = none ↔
      ∃ n, Map.get i fieldName = some (.number n) := by
  unfold ValidateIntField
  cases hget : Map.get i fieldName with
  | none => simp
  | some field =>
    cases field <;> simp

theorem ValidateEvent_eq_none_iff_fields (event : Map) :
    ValidateEvent event = none ↔
      ValidateStringField event "type" = none ∧
      ValidateIntField event "distinct_id" = none ∧
      ValidateStringField event "session_id" = none := by
  unfold ValidateEvent
  cases ValidateStringField event "type" <;>
    cases ValidateIntField event "distinct_id" <;>
    cases ValidateStringField event "session_id" <;> simp

/-- C4: `ValidateEvent` returns the nil error exactly for the events whose `type`
is present and a non-empty string, whose `distinct_id` is present and a number
(`float64`), and whose `session_id` is present and a non-empty string. -/
theorem ValidateEvent_nil_iff (event : Map) :
    ValidateEvent event = none ↔
      (∃ s, Map.get event "type" = some (.str s) ∧ s ≠ "") ∧
      (∃ n, Map.get event "distinct_id" = some (.number n)) ∧
      (∃ s, Map.get event "session_id" = some (.str s) ∧ s ≠ "") := by
  rw [ValidateEvent_eq_none_iff_fields, ValidateStringField_eq_none_iff,
    ValidateIntField_eq_none_iff, ValidateStringField_eq_none_iff]

theorem ValidateStringField_set_timestamp (e : Map) (v : Value) (k : String)
    (hk : k ≠ "timestamp") :
    ValidateStringField (Map.set e "timestamp" v) k = ValidateStringField e k := by
  unfold ValidateStringField
  rw [Map.get_set_other e "timestamp" k v hk]

theorem ValidateIntField_set_timestamp (e : Map) (v : Value) (k : String)
    (hk : k ≠ "timestamp") :
    ValidateIntField (Map.set e "timestamp" v) k = ValidateIntField e k := by
  unfold ValidateIntField
  rw [Map.get_set_other e "timestamp" k v hk]

theorem ValidateEvent_set_timestamp (e : Map) (v : Value) :
    ValidateEvent (Map.set e "timestamp" v) = ValidateEvent e := by
  unfold ValidateEvent
  rw [ValidateStringField_set_timestamp e v "type" (by decide),
    ValidateIntField_set_timestamp e v "distinct_id" (by decide),
    ValidateStringField_set_timestamp e v "session_id" (by decide)]

/-! ## The timestamp loop -/

theorem normalizeEvent_of_str (env : Env) (i : Nat) (e : Map) (s : String)
    (h : Map.get e "timestamp" = some (.str s)) :
    normalizeEvent env i e = .ok (Map.set e "timestamp" (.time (timeParse env s).1)) := by
  simp only [normalizeEvent, h]

theorem normalizeEvent_of_absent (env : Env) (i : Nat) (e : Map)
    (h : Map.get e "timestamp" = none) :
    normalizeEvent env i e = .ok (Map.set e "timestamp" (.time (env.now i))) := by
  simp only [normalizeEvent, h]

theorem timeParse_of_some (env : Env) (s : String) (t : Time) (h : env.parse s = some t) :
    (timeParse env s).1 = t := by
  simp only [timeParse, h]

theorem timeParse_of_none (env : Env) (s : String) (h : env.parse s = none) :
    (timeParse env s).1 = Time.zero := by
  simp only [timeParse, h]

/-- Whenever the loop body returns, it has only rewritten `timestamp`, to a `Time`. -/
theorem normalizeEvent_ok_shape (env : Env) (i : Nat) (e e' : Map)
    (h : normalizeEvent env i e = .ok e') :
    ∃ t, e' = Map.set e "timestamp" (.time t) := by
  unfold normalizeEvent at h
  cases hget : Map.get e "timestamp" with
  | none =>
    rw [hget] at h
    exact ⟨env.now i, (Except.ok.inj h).symm⟩
  | some ts =>
    rw [hget] at h
    cases ts with
    | str s => exact ⟨(timeParse env s).1, (Except.ok.inj h).symm⟩
    | null => simp at h
    | bool b => simp at h
    | number n => simp at h
    | time t => simp at h
    | arr xs => simp at h
    | obj m => simp at h

/-- On well-shaped elements the body of the loop does not panic. -/
theorem normalizeEvent_wellShaped (env : Env) (i : Nat) (e : Map)
    (h : wellShaped (.obj e)) : ∃ e', normalizeEvent env i e = .ok e' := by
  obtain ⟨e0, he, hts⟩ := h
  cases he
  rcases hts with hnone | ⟨s, hs⟩
  · exact ⟨_, normalizeEvent_of_absent env i e hnone⟩
  · exact ⟨_, normalizeEvent_of_str env i e s hs⟩

/-- On a batch of well-shaped elements the loop runs to completion. -/
theorem normalizeLoop_wellShaped (env : Env) (evs : List Value) :
    ∀ i, (∀ v ∈ evs, wellShaped v) → ∃ out, normalizeLoop env i evs = .ok out := by
  induction evs with
  | nil => intro i _; exact ⟨[], rfl⟩
  | cons v rest ih =>
    intro i h
    obtain ⟨e, he, hts⟩ := h v (List.mem_cons_self v rest)
    subst he
    obtain ⟨e', he'⟩ := normalizeEvent_wellShaped env i e ⟨e, rfl, hts⟩
    obtain ⟨rest', hrest'⟩ := ih (i + 1) (fun w hw => h w (List.mem_cons_of_mem _ hw))
    exact ⟨.obj e' :: rest', by simp only [normalizeLoop, he', hrest']⟩

/-- A completed loop has rewritten every element in place, by `normalizeEvent` at
the element's index. -/
theorem normalizeLoop_ok_spec (env : Env) (evs : List Value) :
    ∀ i out, normalizeLoop env i evs = .ok out →
      out.length = evs.length ∧
      ∀ j, j < evs.length → ∃ e e', evs[j]? = some (.obj e) ∧ out[j]? = some (.obj e') ∧
        normalizeEvent env (i + j) e = .ok e' := by
  induction evs with
  | nil =>
    intro i out h
    simp only [normalizeLoop] at h
    cases h
    exact ⟨rfl, fun j hj => absurd hj (Nat.not_lt_zero j)⟩
  | cons v rest ih =>
    intro i out h
    cases v with
    | obj e =>
      simp only [normalizeLoop] at h
      cases he : normalizeEvent env i e with
      | error p => rw [he] at h; simp at h
      | ok e' =>
        rw [he] at h
        cases hr : normalizeLoop env (i + 1) rest with
        | error p => rw [hr] at h; simp at h
        | ok rest' =>
          rw [hr] at h
          simp only [Except.ok.injEq] at h
          subst h
          obtain ⟨hlen, hall⟩ := ih (i + 1) rest' hr
          refine ⟨by simp [hlen], ?_⟩
          intro j hj
          cases j with
          | zero => exact ⟨e, e', by simp, by simp, he⟩
          | succ j =>
            obtain ⟨a, a', h1, h2, h3⟩ := hall j (by simpa using hj)
            refine ⟨a, a', by simpa using h1, by simpa using h2, ?_⟩
            have : i + (j + 1) = i + 1 + j := by omega
            rw [this]; exact h3
    | null => simp [normalizeLoop] at h
    | bool b => simp [normalizeLoop] at h
    | number n => simp [normalizeLoop] at h
    | str s => simp [normalizeLoop] at h
    | time t => simp [normalizeLoop] at h
    | arr xs => simp [normalizeLoop] at h

/-! ## The queue -/

theorem enqueue_of_room (queue : List Batch) (events : Batch) (workerReceives : Bool)
    (h : queue.length < eventsChannelCap) :
    enqueue queue events workerReceives = (queue ++ [events], .sentImmediately) := by
  simp only [enqueue, if_pos h]

theorem enqueue_of_full (queue : List Batch) (events : Batch)
    (h : queue.length = eventsChannelCap) :
    enqueue queue events false = (queue, .timedOut) := by
  have hn : ¬ queue.length < eventsChannelCap := by omega
  simp [enqueue, if_neg hn]

theorem enqueue_of_wait (queue : List Batch) (events : Batch)
    (h : ¬ queue.length < eventsChannelCap) :
    enqueue queue events true = (queue.tail ++ [events], .sentAfterWait) := by
  simp [enqueue, if_neg h]

theorem enqueue_of_timeout (queue : List Batch) (events : Batch)
    (h : ¬ queue.length < eventsChannelCap) :
    enqueue queue events false = (queue, .timedOut) := by
  simp [enqueue, if_neg h]

/-! ## `EventsHandler` -/

/-- The handler on a payload whose `events` is an array and whose loop completes,
when the queue is full and a worker receives before the timer fires. -/
theorem EventsHandler_of_wait (env : Env) (st : Server) (payload : Map)
    (evs : List Value) (out : Batch)
    (hev : Map.get payload "events" = some (.arr evs))
    (hnorm : normalizeLoop env 0 evs = .ok out)
    (hfull : ¬ st.queue.length < eventsChannelCap) :
    EventsHandler env st (.ok (.obj payload)) true =
      ({ st with
          queue := st.queue.tail ++ [out]
          log := st.log ++ env.schemaErrors payload },
        ⟨some StatusNoContent, none⟩) := by
  simp only [EventsHandler, hev, hnorm, enqueue_of_wait _ _ hfull]

/-- The handler on a payload whose `events` is an array and whose loop completes,
when the queue is full and no worker receives before the timer fires. -/
theorem EventsHandler_of_timeout (env : Env) (st : Server) (payload : Map)
    (evs : List Value) (out : Batch)
    (hev : Map.get payload "events" = some (.arr evs))
    (hnorm : normalizeLoop env 0 evs = .ok out)
    (hfull : ¬ st.queue.length < eventsChannelCap) :
    EventsHandler env st (.ok (.obj payload)) false =
      ({ st with
          log := st.log ++ env.schemaErrors payload ++
            ["Failed to respond below one second. Events channell is occupied."] },
        ⟨some StatusInternalServerError, none⟩) := by
  simp only [EventsHandler, hev, hnorm, enqueue_of_timeout _ _ hfull]

/-- The handler on a payload whose `events` is an array and whose loop completes,
when the queue has room. -/
theorem EventsHandler_of_room (env : Env) (st : Server) (payload : Map)
    (evs : List Value) (out : Batch) (workerReceives : Bool)
    (hev : Map.get payload "events" = some (.arr evs))
    (hnorm : normalizeLoop env 0 evs = .ok out)
    (hroom : st.queue.length < eventsChannelCap) :
    EventsHandler env st (.ok (.obj payload)) workerReceives =
      ({ st with
          queue := st.queue ++ [out]
          log := st.log ++ env.schemaErrors payload },
        ⟨some StatusNoContent, none⟩) := by
  simp only [EventsHandler, hev, hnorm, enqueue_of_room _ _ _ hroom]

/-- The handler on a payload whose `events` is an array and whose loop completes,
when the queue is full and stays full until the timer fires. -/
theorem EventsHandler_of_full (env : Env) (st : Server) (payload : Map)
    (evs : List Value) (out : Batch)
    (hev : Map.get payload "events" = some (.arr evs))
    (hnorm : normalizeLoop env 0 evs = .ok out)
    (hfull : st.queue.length = eventsChannelCap) :
    EventsHandler env st (.ok (.obj payload)) false =
      ({ st with
          log := st.log ++ env.schemaErrors payload ++
            ["Failed to respond below one second. Events channell is occupied."] },
        ⟨some StatusInternalServerError, none⟩) := by
  simp only [EventsHandler, hev, hnorm, enqueue_of_full _ _ hfull]

/-! ## The workers -/

theorem workerLoop_nil_queue (st : Server) (fails : List Bool) (h : st.queue = []) :
    workerLoop st fails = st := by
  cases fails with
  | nil => rfl
  | cons f fs => simp only [workerLoop, workerStep, h]

/-- What a run of the worker loop leaves: the batches it received are gone from
the queue and were each handed to `Insert` once, in order; the collection holds
the acknowledged ones; nothing was logged. -/
theorem workerLoop_spec (fails : List Bool) :
    ∀ st : Server,
      (workerLoop st fails).queue = st.queue.drop fails.length ∧
      (workerLoop st fails).calls = st.calls ++ st.queue.take fails.length ∧
      (workerLoop st fails).docs = st.docs ++ persisted st.queue fails ∧
      (workerLoop st fails).log = st.log := by
  induction fails with
  | nil => intro st; simp [workerLoop, persisted]
  | cons f fs ih =>
    intro st
    cases hq : st.queue with
    | nil =>
      rw [workerLoop_nil_queue st (f :: fs) hq]
      simp [hq, persisted]
    | cons events rest =>
      have hstep : workerLoop st (f :: fs) =
          workerLoop { st with
            queue := rest
            docs := (Insert st.docs events f).1
            calls := st.calls ++ [events] } fs := by
        simp only [workerLoop, workerStep, hq]
      rw [hstep]
      obtain ⟨h1, h2, h3, h4⟩ := ih { st with
        queue := rest
        docs := (Insert st.docs events f).1
        calls := st.calls ++ [events] }
      refine ⟨by simpa using h1, by simpa using h2, ?_, by simpa using h4⟩
      rw [h3]
      cases f <;> simp [Insert, persisted]

/-! ## Claims -/

/-- C1, as stated, fails: an event without `distinct_id` and `session_id`, for
which `ValidateEvent` returns an error, is on the queue after the handler ran. -/
theorem EventsHandler_queues_invalid_event :
    ValidateEvent badEvent = some "distinct_id is not present" ∧
    (EventsHandler sampleEnv emptyServer (.ok (.obj (payloadOf [.obj badEvent]))) false).1.queue
      = [[.obj (("timestamp", .time ⟨2024, 5, 6, 7, 8, 9, 0, 0⟩) :: badEvent)]] ∧
    ValidateEvent (("timestamp", .time ⟨2024, 5, 6, 7, 8, 9, 0, 0⟩) :: badEvent)
      = some "distinct_id is not present" :=
  ⟨rfl, rfl, rfl⟩

theorem wellShaped_goodEvent : wellShaped (.obj goodEvent) :=
  ⟨goodEvent, rfl, Or.inl rfl⟩

theorem wellShaped_badEvent : wellShaped (.obj badEvent) :=
  ⟨badEvent, rfl, Or.inl rfl⟩

theorem wellShaped_stamped (s : String) : wellShaped (.obj (stamped (.str s))) :=
  ⟨stamped (.str s), rfl, Or.inr ⟨s, rfl⟩⟩

/-- C1 (amended): for a submitted batch of maps whose `timestamp` is absent or a
string, the batch `EventsHandler` places on the queue, at once when the queue has
room or after a wait on a full queue when a worker receives before the timer
fires, is put at the tail of the queue and holds every event of the submitted
batch, in the original order: each one with all its fields but `timestamp`
unchanged and with the verdict of `ValidateEvent` unchanged, so valid events are
kept and invalid ones are not excluded. Only when the timer fires on a full queue
is nothing placed. -/
theorem EventsHandler_queues_every_event (env : Env) (st : Server) (payload : Map)
    (evs : List Value) (workerReceives : Bool)
    (hev : Map.get payload "events" = some (.arr evs))
    (hshape : ∀ v ∈ evs, wellShaped v) :
    ∃ out,
      out.length = evs.length ∧
      (∀ j, j < evs.length → ∃ e e', evs[j]? = some (.obj e) ∧ out[j]? = some (.obj e') ∧
        (∀ k, k ≠ "timestamp" → Map.get e' k = Map.get e k) ∧
        ValidateEvent e' = ValidateEvent e) ∧
      (st.queue.length < eventsChannelCap →
        (EventsHandler env st (.ok (.obj payload)) workerReceives).1.queue
          = st.queue ++ [out]) ∧
      (¬ st.queue.length < eventsChannelCap → workerReceives = true →
        (EventsHandler env st (.ok (.obj payload)) workerReceives).1.queue
          = st.queue.tail ++ [out]) ∧
      (¬ st.queue.length < eventsChannelCap → workerReceives = false →
        (EventsHandler env st (.ok (.obj payload)) workerReceives).1.queue = st.queue) := by
  obtain ⟨out, hout⟩ := normalizeLoop_wellShaped env evs 0 hshape
  obtain ⟨hlen, hall⟩ := normalizeLoop_ok_spec env evs 0 out hout
  refine ⟨out, hlen, ?_, ?_, ?_, ?_⟩
  · intro j hj
    obtain ⟨e, e', h1, h2, h3⟩ := hall j hj
    obtain ⟨t, ht⟩ := normalizeEvent_ok_shape env (0 + j) e e' h3
    subst ht
    exact ⟨e, _, h1, h2, fun k hk => Map.get_set_other e "timestamp" k _ hk,
      ValidateEvent_set_timestamp e _⟩
  · intro hroom
    rw [EventsHandler_of_room env st payload evs out workerReceives hev hout hroom]
  · intro hfull hw
    subst hw
    rw [EventsHandler_of_wait env st payload evs out hev hout hfull]
  · intro hfull hw
    subst hw
    rw [EventsHandler_of_timeout env st payload evs out hev hout hfull]

/-- C1 (amended), on the batch of an invalid event followed by a valid one, sent
after a wait on a queue of 100 batches: the batch of two events is at the tail of
the queue, behind the 99 batches the worker left. -/
theorem EventsHandler_queues_every_event_witness :
    ∃ out,
      (EventsHandler sampleEnv fullServer
        (.ok (.obj (payloadOf [.obj badEvent, .obj goodEvent]))) true).1.queue
          = List.replicate 99 [] ++ [out] ∧
      out.length = 2 ∧
      ∀ j, j < 2 →
        ∃ e e', [Value.obj badEvent, Value.obj goodEvent][j]? = some (.obj e) ∧
          out[j]? = some (.obj e') ∧
          (∀ k, k ≠ "timestamp" → Map.get e' k = Map.get e k) ∧
          ValidateEvent e' = ValidateEvent e := by
  obtain ⟨out, hlen, hall, _, hwait, _⟩ := EventsHandler_queues_every_event sampleEnv
    fullServer (payloadOf [.obj badEvent, .obj goodEvent])
    [.obj badEvent, .obj goodEvent] true rfl
    (by
      intro v hv
      simp only [List.mem_cons, List.mem_singleton, List.not_mem_nil, or_false] at hv
      rcases hv with rfl | rfl
      · exact wellShaped_badEvent
      · exact wellShaped_goodEvent)
  exact ⟨out, hwait (by decide) rfl, hlen, hall⟩

/-- C2: the handler on a well-formed event whose `timestamp` is the string
`"yesterday"`, which does not parse. The event is kept, but the `timestamp` put on
the queue is the zero `Time` (January 1 of year 1), not the time of receipt. -/
theorem EventsHandler_unparsable_timestamp :
    sampleEnv.parse "yesterday" = none ∧
    (EventsHandler sampleEnv emptyServer
      (.ok (.obj (payloadOf [.obj (stamped (.str "yesterday"))]))) false).1.queue
        = [[.obj (("timestamp", .time Time.zero) :: goodEvent)]] ∧
    Time.zero ≠ sampleEnv.now 0 :=
  ⟨rfl, rfl, by decide⟩

/-- C3: the handler on a batch of a well-formed event followed by one whose
`timestamp` is a number. The type assertion `timestamp.(string)` panics: no
status is written and nothing is put on the queue, the first event included. -/
theorem EventsHandler_panics_on_number_timestamp :
    (EventsHandler sampleEnv emptyServer
      (.ok (.obj (payloadOf [.obj goodEvent, .obj (stamped one)]))) false).2.panic
        = some "interface conversion: interface {} is float64, not string" ∧
    (EventsHandler sampleEnv emptyServer
      (.ok (.obj (payloadOf [.obj goodEvent, .obj (stamped one)]))) false).2.status = none ∧
    (EventsHandler sampleEnv emptyServer
      (.ok (.obj (payloadOf [.obj goodEvent, .obj (stamped one)]))) false).1.queue = [] ∧
    normalizeLoop sampleEnv 0 [.obj goodEvent, .obj (stamped one)]
        = .error "interface conversion: interface {} is float64, not string" :=
  ⟨rfl, rfl, rfl, rfl⟩

/-- C5: for a submitted batch of maps whose `timestamp` is absent or a string, the
timestamp loop completes, and its result, which is the batch the handler puts on
the queue when there is room, has at each index the event of the submitted batch
with `timestamp` set to the instant parsed from the input when the field is a
string that parses, and to the reading of the clock at that event when the field
is absent. -/
theorem EventsHandler_timestamp (env : Env) (evs : List Value)
    (hshape : ∀ v ∈ evs, wellShaped v) :
    ∃ out,
      normalizeLoop env 0 evs = .ok out ∧
      (∀ (st : Server) (payload : Map) (workerReceives : Bool),
        Map.get payload "events" = some (.arr evs) →
        st.queue.length < eventsChannelCap →
        (EventsHandler env st (.ok (.obj payload)) workerReceives).1.queue
          = st.queue ++ [out]) ∧
      ∀ j e, evs[j]? = some (.obj e) → ∃ e', out[j]? = some (.obj e') ∧
        (∀ s t, Map.get e "timestamp" = some (.str s) → env.parse s = some t →
          Map.get e' "timestamp" = some (.time t)) ∧
        (Map.get e "timestamp" = none →
          Map.get e' "timestamp" = some (.time (env.now j))) := by
  obtain ⟨out, hout⟩ := normalizeLoop_wellShaped env evs 0 hshape
  obtain ⟨_, hall⟩ := normalizeLoop_ok_spec env evs 0 out hout
  refine ⟨out, hout, ?_, ?_⟩
  · intro st payload workerReceives hev hroom
    rw [EventsHandler_of_room env st payload evs out workerReceives hev hout hroom]
  · intro j e hj
    have hlt : j < evs.length := by
      rcases Nat.lt_or_ge j evs.length with h | h
      · exact h
      · rw [List.getElem?_eq_none h] at hj; cases hj
    obtain ⟨a, e', h1, h2, h3⟩ := hall j hlt
    rw [h1] at hj
    cases hj
    rw [Nat.zero_add] at h3
    refine ⟨e', h2, ?_, ?_⟩
    · intro s t hs hp
      rw [normalizeEvent_of_str env j e s hs, timeParse_of_some env s t hp] at h3
      cases h3
      exact Map.get_set_self e "timestamp" _
    · intro hnone
      rw [normalizeEvent_of_absent env j e hnone] at h3
      cases h3
      exact Map.get_set_self e "timestamp" _

/-- C5, on the batch of an event stamped `"2023-01-01T00:00:00.000Z"` followed by an
event without `timestamp`: the first is queued with exactly that instant, the
second with the reading of the clock at index 1. -/
theorem EventsHandler_timestamp_witness :
    ∃ out e0 e1,
      (EventsHandler sampleEnv emptyServer
        (.ok (.obj (payloadOf [.obj (stamped (.str "2023-01-01T00:00:00.000Z")),
          .obj goodEvent]))) false).1.queue = [out] ∧
      out[0]? = some (.obj e0) ∧
      Map.get e0 "timestamp" = some (.time ⟨2023, 1, 1, 0, 0, 0, 0, 0⟩) ∧
      out[1]? = some (.obj e1) ∧
      Map.get e1 "timestamp" = some (.time ⟨2024, 5, 6, 7, 8, 9, 1, 0⟩) := by
  obtain ⟨out, _, hq, hall⟩ := EventsHandler_timestamp sampleEnv
    [.obj (stamped (.str "2023-01-01T00:00:00.000Z")), .obj goodEvent]
    (by
      intro v hv
      simp only [List.mem_cons, List.mem_singleton, List.not_mem_nil, or_false] at hv
      rcases hv with rfl | rfl
      · exact wellShaped_stamped _
      · exact wellShaped_goodEvent)
  obtain ⟨e0, h0, hparsed, _⟩ := hall 0 (stamped (.str "2023-01-01T00:00:00.000Z")) rfl
  obtain ⟨e1, h1, _, habsent⟩ := hall 1 goodEvent rfl
  exact ⟨out, e0, e1,
    hq emptyServer (payloadOf [.obj (stamped (.str "2023-01-01T00:00:00.000Z")),
      .obj goodEvent]) false rfl (by decide),
    h0, hparsed "2023-01-01T00:00:00.000Z" ⟨2023, 1, 1, 0, 0, 0, 0, 0⟩ rfl rfl,
    h1, habsent rfl⟩

/-- C6: when the queue holds 100 batches and no worker receives before the timer
fires, the `select` takes the timer case: the handler answers 500, and the queue,
the collection and the record of store calls are what they were before the call,
so whatever the workers hand to the store afterwards comes from the old queue. -/
theorem EventsHandler_overloaded (env : Env) (st : Server) (payload : Map)
    (evs : List Value) (out : Batch)
    (hev : Map.get payload "events" = some (.arr evs))
    (hnorm : normalizeLoop env 0 evs = .ok out)
    (hfull : st.queue.length = eventsChannelCap) :
    enqueue st.queue out false = (st.queue, .timedOut) ∧
    (EventsHandler env st (.ok (.obj payload)) false).2.status
      = some StatusInternalServerError ∧
    (EventsHandler env st (.ok (.obj payload)) false).1.queue = st.queue ∧
    (EventsHandler env st (.ok (.obj payload)) false).1.docs = st.docs ∧
    (EventsHandler env st (.ok (.obj payload)) false).1.calls = st.calls ∧
    ∀ fails, (workerLoop (EventsHandler env st (.ok (.obj payload)) false).1 fails).calls
      = st.calls ++ st.queue.take fails.length := by
  rw [EventsHandler_of_full env st payload evs out hev hnorm hfull]
  refine ⟨enqueue_of_full _ _ hfull, rfl, rfl, rfl, rfl, ?_⟩
  intro fails
  exact (workerLoop_spec fails _).2.1

/-- C6, on a queue of 100 batches and a batch of one well-formed event. -/
theorem EventsHandler_overloaded_witness :
    (EventsHandler sampleEnv fullServer (.ok (.obj (payloadOf [.obj goodEvent]))) false).2.status
      = some 500 ∧
    (EventsHandler sampleEnv fullServer (.ok (.obj (payloadOf [.obj goodEvent]))) false).1.queue
      = fullServer.queue :=
  have h := EventsHandler_overloaded sampleEnv fullServer (payloadOf [.obj goodEvent])
    [.obj goodEvent] [.obj (Map.set goodEvent "timestamp" (.time (sampleEnv.now 0)))]
    rfl rfl rfl
  ⟨h.2.1, h.2.2.1⟩

/-- C7: when the queue holds fewer than 100 batches, the `select` takes the send
case at once, whether or not a worker receives meanwhile: the batch is appended at
the tail of the queue and the handler answers 204. -/
theorem EventsHandler_accepted (env : Env) (st : Server) (payload : Map)
    (evs : List Value) (out : Batch) (workerReceives : Bool)
    (hev : Map.get payload "events" = some (.arr evs))
    (hnorm : normalizeLoop env 0 evs = .ok out)
    (hroom : st.queue.length < eventsChannelCap) :
    enqueue st.queue out workerReceives = (st.queue ++ [out], .sentImmediately) ∧
    (EventsHandler env st (.ok (.obj payload)) workerReceives).2.status
      = some StatusNoContent ∧
    (EventsHandler env st (.ok (.obj payload)) workerReceives).1.queue
      = st.queue ++ [out] := by
  rw [EventsHandler_of_room env st payload evs out workerReceives hev hnorm hroom]
  exact ⟨enqueue_of_room _ _ _ hroom, rfl, rfl⟩

/-- C7, on the empty queue and a batch of one well-formed event. -/
theorem EventsHandler_accepted_witness :
    (EventsHandler sampleEnv emptyServer (.ok (.obj (payloadOf [.obj goodEvent]))) false).2.status
      = some 204 ∧
    (EventsHandler sampleEnv emptyServer (.ok (.obj (payloadOf [.obj goodEvent]))) false).1.queue
      = [[.obj (Map.set goodEvent "timestamp" (.time (sampleEnv.now 0)))]] :=
  have h := EventsHandler_accepted sampleEnv emptyServer (payloadOf [.obj goodEvent])
    [.obj goodEvent] [.obj (Map.set goodEvent "timestamp" (.time (sampleEnv.now 0)))] false
    rfl rfl (by decide)
  ⟨h.2.1, h.2.2⟩

/-! ### First in, first out -/

theorem Trace.step_invariant (t : Trace) (op : Op)
    (h : t.server.calls ++ t.server.queue = t.accepted) :
    (t.step op).server.calls ++ (t.step op).server.queue = (t.step op).accepted := by
  cases op with
  | submit events =>
    by_cases hroom : t.server.queue.length < eventsChannelCap
    · simp only [Trace.step, enqueue, if_pos hroom]
      rw [← List.append_assoc, h]
    · simp [Trace.step, enqueue, if_neg hroom, h]
  | work fails =>
    cases hq : t.server.queue with
    | nil =>
      simp only [Trace.step, workerStep, hq]
      rw [← h, hq]
    | cons events rest =>
      simp only [Trace.step, workerStep, hq]
      rw [← h, hq]
      simp

theorem Trace.run_invariant (ops : List Op) :
    ∀ t : Trace, t.server.calls ++ t.server.queue = t.accepted →
      (t.run ops).server.calls ++ (t.run ops).server.queue = (t.run ops).accepted := by
  induction ops with
  | nil => intro t h; exact h
  | cons op ops ih =>
    intro t h
    exact ih (t.step op) (Trace.step_invariant t op h)

theorem Trace.run_append (t : Trace) (ops ops' : List Op) :
    t.run (ops ++ ops') = (t.run ops).run ops' := by
  simp only [Trace.run, List.foldl_append]

/-- A worker that performs as many iterations as the queue holds batches has
dequeued the whole queue, in order, and nothing new was accepted. -/
theorem Trace.run_drain (fs : List Bool) :
    ∀ t : Trace, fs.length = t.server.queue.length →
      (t.run (fs.map Op.work)).server.calls = t.server.calls ++ t.server.queue ∧
      (t.run (fs.map Op.work)).server.queue = [] ∧
      (t.run (fs.map Op.work)).accepted = t.accepted := by
  induction fs with
  | nil =>
    intro t h
    have hq : t.server.queue = [] := List.length_eq_zero.mp h.symm
    simp [Trace.run, hq]
  | cons f fs ih =>
    intro t h
    cases hq : t.server.queue with
    | nil => rw [hq] at h; cases h
    | cons events rest =>
      have hstep : t.run ((f :: fs).map Op.work) =
          Trace.run { t with server := { t.server with
            queue := rest
            docs := (Insert t.server.docs events f).1
            calls := t.server.calls ++ [events] } } (fs.map Op.work) := by
        simp only [Trace.run, List.map_cons, List.foldl_cons, Trace.step, workerStep, hq]
      have hlen : fs.length = rest.length := by
        rw [hq] at h
        simpa using h
      obtain ⟨h1, h2, h3⟩ := ih { t with server := { t.server with
        queue := rest
        docs := (Insert t.server.docs events f).1
        calls := t.server.calls ++ [events] } } hlen
      rw [hstep]
      exact ⟨by simpa using h1, h2, h3⟩

/-- C8: on a fresh queue with one producer and one worker, after any interleaving
of submissions and worker iterations the batches dequeued so far, followed by the
batches still queued, are the accepted batches in the order of their submission;
and once the worker has gone through what is left, whatever the store answers, it
has dequeued exactly the accepted batches, in that order. -/
theorem eventsChannel_fifo (ops : List Op) (fs : List Bool)
    (hfs : fs.length = (Trace.init.run ops).server.queue.length) :
    (Trace.init.run ops).server.calls ++ (Trace.init.run ops).server.queue
      = (Trace.init.run ops).accepted ∧
    (Trace.init.run (ops ++ fs.map Op.work)).server.calls
      = (Trace.init.run ops).accepted ∧
    (Trace.init.run (ops ++ fs.map Op.work)).accepted
      = (Trace.init.run ops).accepted := by
  have hinv := Trace.run_invariant ops Trace.init rfl
  obtain ⟨h1, _, h3⟩ := Trace.run_drain fs (Trace.init.run ops) hfs
  refine ⟨hinv, ?_, ?_⟩
  · rw [Trace.run_append, h1]
    exact hinv
  · rw [Trace.run_append, h3]

/-- C8, on the sequence `[A, B, C]`: three batches submitted in a row are all
accepted, and three iterations of the worker dequeue them in the same order. -/
theorem eventsChannel_fifo_witness :
    (Trace.init.run ([.submit [.str "A"], .submit [.str "B"], .submit [.str "C"]] ++
      [false, true, false].map Op.work)).server.calls
        = [[.str "A"], [.str "B"], [.str "C"]] ∧
    (Trace.init.run [.submit [.str "A"], .submit [.str "B"], .submit [.str "C"]]).accepted
        = [[.str "A"], [.str "B"], [.str "C"]] :=
  have h := eventsChannel_fifo [.submit [.str "A"], .submit [.str "B"], .submit [.str "C"]]
    [false, true, false] rfl
  ⟨h.2.1, rfl⟩

/-! ### Failed store calls -/

theorem persisted_append (queue : List Batch) :
    ∀ (fails : List Bool) (events : Batch) (f : Bool), fails.length = queue.length →
      persisted (queue ++ [events]) (fails ++ [f])
        = persisted queue fails ++ (if f then [] else events) := by
  induction queue with
  | nil =>
    intro fails events f h
    have hf : fails = [] := List.length_eq_zero.mp h
    subst hf
    simp [persisted]
  | cons b queue ih =>
    intro fails events f h
    cases fails with
    | nil => cases h
    | cons g fails =>
      have hlen : fails.length = queue.length := by simpa using h
      have hrec := ih fails events f hlen
      show (if g = true then [] else b) ++ persisted (queue ++ [events]) (fails ++ [f])
        = (if g = true then [] else b) ++ persisted queue fails ++ (if f then [] else events)
      rw [hrec, List.append_assoc]

/-- C9, as stated, fails: the store rejects the batch the worker dequeued, and the
log is as empty after the iteration as it was before. -/
theorem worker_logs_nothing_on_failed_insert :
    (Insert emptyServer.docs [.obj goodEvent] true).2 = some "insert failed" ∧
    (workerStep { emptyServer with queue := [[.obj goodEvent]] } true).map Server.log
      = some [] ∧
    (workerLoop { emptyServer with queue := [[.obj goodEvent]] } [true]).log = [] :=
  ⟨rfl, rfl, rfl⟩

/-- C9 (amended): when the store rejects the batch `x` a worker dequeued, the
iteration logs nothing, leaves the collection as it was, records one store call
for `x` and leaves the rest of the queue, without `x`; and when a batch `y` is
queued afterwards, the worker goes on through the queue, hands each batch to the
store once, in order, and `y`, whose call is acknowledged, ends in the
collection. -/
theorem worker_continues_after_failed_insert (st : Server) (x y : Batch)
    (rest : List Batch) (fails : List Bool)
    (hq : st.queue = x :: rest) (hlen : fails.length = rest.length) :
    (Insert st.docs x true).2 ≠ none ∧
    workerLoop st [true] = { st with queue := rest, calls := st.calls ++ [x] } ∧
    (workerLoop { workerLoop st [true] with queue := (workerLoop st [true]).queue ++ [y] }
      (fails ++ [false])).queue = [] ∧
    (workerLoop { workerLoop st [true] with queue := (workerLoop st [true]).queue ++ [y] }
      (fails ++ [false])).calls = st.calls ++ [x] ++ rest ++ [y] ∧
    (workerLoop { workerLoop st [true] with queue := (workerLoop st [true]).queue ++ [y] }
      (fails ++ [false])).docs = st.docs ++ persisted rest fails ++ y ∧
    (workerLoop { workerLoop st [true] with queue := (workerLoop st [true]).queue ++ [y] }
      (fails ++ [false])).log = st.log := by
  have hfirst : workerLoop st [true] = { st with queue := rest, calls := st.calls ++ [x] } := by
    simp only [workerLoop, workerStep, hq, Insert, if_true]
  refine ⟨by simp [Insert], hfirst, ?_⟩
  rw [hfirst]
  obtain ⟨h1, h2, h3, h4⟩ := workerLoop_spec (fails ++ [false])
    { st with queue := rest ++ [y], calls := st.calls ++ [x] }
  refine ⟨?_, ?_, ?_, ?_⟩
  · rw [h1]
    simp [hlen]
  · rw [h2]
    simp [hlen]
  · rw [h3]
    simp only []
    rw [persisted_append rest fails y false hlen]
    simp
  · rw [h4]

/-- C9 (amended), on a queue of two batches whose first store call fails, with a
third batch queued after the failure. -/
theorem worker_continues_after_failed_insert_witness :
    workerLoop { emptyServer with queue := [[.obj badEvent], [.null]] } [true]
      = { emptyServer with queue := [[.null]], calls := [] ++ [[.obj badEvent]] } ∧
    (workerLoop
      { workerLoop { emptyServer with queue := [[.obj badEvent], [.null]] } [true] with
        queue := (workerLoop { emptyServer with queue := [[.obj badEvent], [.null]] }
          [true]).queue ++ [[.obj goodEvent]] }
      ([false] ++ [false])).docs = [] ++ persisted [[.null]] [false] ++ [.obj goodEvent] :=
  have h := worker_continues_after_failed_insert
    { emptyServer with queue := [[.obj badEvent], [.null]] } [.obj badEvent] [.obj goodEvent]
    [[.null]] [false] rfl rfl
  ⟨h.2.1, h.2.2.2.2.1⟩

/-- C10: on a payload object without the key `events` the handler leaves the queue
as it was, never calls `WriteHeader` (so it answers neither 204 nor 500) and does
not panic; it only logs what the schema reports. -/
theorem EventsHandler_without_events (env : Env) (st : Server) (payload : Map)
    (workerReceives : Bool) (h : Map.get payload "events" = none) :
    (EventsHandler env st (.ok (.obj payload)) workerReceives).1.queue = st.queue ∧
    (EventsHandler env st (.ok (.obj payload)) workerReceives).2.status = none ∧
    (EventsHandler env st (.ok (.obj payload)) workerReceives).2.panic = none ∧
    (EventsHandler env st (.ok (.obj payload)) workerReceives).1.log
      = st.log ++ env.schemaErrors payload := by
  simp only [EventsHandler, h, and_self]

/-- C10, on the payload whose only key is `event` and a full queue. -/
theorem EventsHandler_without_events_witness :
    (EventsHandler sampleEnv fullServer (.ok (.obj [("event", .obj goodEvent)])) true).1.queue
      = fullServer.queue ∧
    (EventsHandler sampleEnv fullServer (.ok (.obj [("event", .obj goodEvent)])) true).2.status
      = none :=
  have h := EventsHandler_without_events sampleEnv fullServer [("event", .obj goodEvent)]
    true rfl
  ⟨h.1, h.2.1⟩

end GoCollect
